import Mathlib

/-!
Shallow embedding of the slate-gboard plugin (`src/lib/index.js`).

The plugin closes over three mutable variables (`compositionCount`,
`isComposing`, `textToInsert`) and exposes four event handlers:
`onBeforeInput`, `onCompositionEnd`, `onCompositionStart`, `onInput`
(plus the helper `updateTextAndSelection`).

Modelling choices:
* JS strings become `List Char`; `.length`, `.slice(0, -1)`, `.charAt(len-1)`
  become `List.length`, `List.dropLast`, `List.getLast?`.
* Slate ranges become the `Selection` record.  Their operations
  (`collapseToStart`, `collapseToEnd`, `move`, `moveAnchorTo`,
  `moveFocusTo`) are pure value producers, exactly as the source itself
  relies on: `updateTextAndSelection` derives the two distinct ranges
  `corrected` and `entire` from the one immutable `selection` value.
* The external diff dependency (`require('diff')`, `jsdiff.diffChars`) is
  not part of the repository; `diffChars` below models it from the spec.
* Handler effects (`change.insertText`, `change.deleteCharBackward`,
  `change.insertTextAtRange(..).select(..)`) are reified as `Mutation`
  values; the JS return value (`return false` vs a bare `return`, vs an
  uncaught `TypeError`) is reified as `InputResult`.
-/

namespace Gboard

/-- A Slate range: anchor and focus points plus backwardness.  Offsets are
integers because `move` can receive a negative delta. -/
structure Selection where
  anchorKey : String
  anchorOffset : Int
  focusKey : String
  focusOffset : Int
  isBackward : Bool
deriving DecidableEq, Repr

/-- Slate `Range.collapseToStart`: collapse onto the start point
(the focus point when the range is backward, the anchor otherwise). -/
def Selection.collapseToStart (s : Selection) : Selection :=
  if s.isBackward then ⟨s.focusKey, s.focusOffset, s.focusKey, s.focusOffset, false⟩
  else ⟨s.anchorKey, s.anchorOffset, s.anchorKey, s.anchorOffset, false⟩

/-- Slate `Range.collapseToEnd`: collapse onto the end point
(the anchor point when the range is backward, the focus otherwise). -/
def Selection.collapseToEnd (s : Selection) : Selection :=
  if s.isBackward then ⟨s.anchorKey, s.anchorOffset, s.anchorKey, s.anchorOffset, false⟩
  else ⟨s.focusKey, s.focusOffset, s.focusKey, s.focusOffset, false⟩

/-- Slate `Range.move(n)`: shift both offsets by `n`. -/
def Selection.move (s : Selection) (n : Int) : Selection :=
  { s with anchorOffset := s.anchorOffset + n, focusOffset := s.focusOffset + n }

/-- Slate `Range.moveAnchorTo(key, offset)`. -/
def Selection.moveAnchorTo (s : Selection) (key : String) (offset : Int) : Selection :=
  { s with anchorKey := key, anchorOffset := offset }

/-- Slate `Range.moveFocusTo(key, offset)`. -/
def Selection.moveFocusTo (s : Selection) (key : String) (offset : Int) : Selection :=
  { s with focusKey := key, focusOffset := offset }

/-! ## Composition tracker (closure state of `GboardPlugin`) -/

/-- The three closure variables of `GboardPlugin`:
`compositionCount`, `isComposing`, `textToInsert`. -/
structure CompState where
  compositionCount : Nat
  isComposing : Bool
  textToInsert : List Char
deriving DecidableEq, Repr

/-- `onCompositionStart(event, change, editor)`:
`isComposing = true; compositionCount++`. -/
def onCompositionStart (s : CompState) : CompState :=
  { s with isComposing := true, compositionCount := s.compositionCount + 1 }

/-- `onCompositionEnd(event, change, editor)`.  Returns the synchronous
next state together with the generation `n = compositionCount` captured by
the `window.requestAnimationFrame` callback.  The deferred callback body
itself is `runReset`. -/
def onCompositionEnd (isAndroid : Bool) (data : List Char) (s : CompState) :
    CompState × Nat :=
  let n := s.compositionCount
  if isAndroid ∧ s.isComposing ∧ data ≠ [] then
    ({ s with textToInsert := data }, n)
  else
    (s, n)

/-- The deferred callback scheduled by `onCompositionEnd`:
`if (compositionCount > n) return; isComposing = false`. -/
def runReset (n : Nat) (s : CompState) : CompState :=
  if s.compositionCount > n then s else { s with isComposing := false }

/-- `onBeforeInput(event, change, editor)`: returns the next state and the
text passed to `change.insertText` (or `none` when `localInsert` stayed
empty, in which case no insertion happens). -/
def onBeforeInput (isAndroid : Bool) (data : List Char) (s : CompState) :
    CompState × Option (List Char) :=
  if isAndroid then
    -- `if (event.data !== '' && textToInsert === '')`
    let localInsert : List Char :=
      if data ≠ [] ∧ s.textToInsert = [] then data else []
    -- `if (textToInsert !== '')` appends `textToInsert + event.data`
    -- and clears `textToInsert`
    if s.textToInsert ≠ [] then
      let localInsert := localInsert ++ s.textToInsert ++ data
      ({ s with textToInsert := [] },
        if localInsert ≠ [] then some localInsert else none)
    else
      (s, if localInsert ≠ [] then some localInsert else none)
  else
    -- non-Android: `localInsert += event.data`
    (s, if data ≠ [] then some data else none)

/-! ## Event traces

`onCompositionEnd` schedules its reset via `requestAnimationFrame`; the
pending callbacks are modelled as a FIFO of captured generations, fired by
an explicit `fireReset` event (the host event loop runs them on a later
turn). -/

/-- Tracker state plus the queue of scheduled (not yet fired) resets. -/
structure SysState where
  comp : CompState
  pending : List Nat
deriving DecidableEq, Repr

/-- Events delivered to the plugin, plus the firing of a deferred reset. -/
inductive Event where
  | compStart : Event
  | compEnd (data : List Char) : Event
  | beforeInput (data : List Char) : Event
  | fireReset : Event
deriving DecidableEq, Repr

/-- One event step; the second component lists the insertions
(`change.insertText` calls) the step performed. -/
def step (isAndroid : Bool) (s : SysState) : Event → SysState × List (List Char)
  | .compStart => (⟨onCompositionStart s.comp, s.pending⟩, [])
  | .compEnd data =>
      let r := onCompositionEnd isAndroid data s.comp
      (⟨r.1, s.pending ++ [r.2]⟩, [])
  | .beforeInput data =>
      let r := onBeforeInput isAndroid data s.comp
      (⟨r.1, s.pending⟩, r.2.toList)
  | .fireReset =>
      match s.pending with
      | [] => (s, [])
      | n :: rest => (⟨runReset n s.comp, rest⟩, [])

/-- Run a list of events, accumulating all insertions in order. -/
def runTrace (isAndroid : Bool) (events : List Event) (s : SysState) :
    SysState × List (List Char) :=
  events.foldl
    (fun acc e =>
      let r := step isAndroid acc.1 e
      (r.1, acc.2 ++ r.2))
    (s, [])

/-- The plugin's initial closure state:
`compositionCount = 0`, `isComposing = false`, `textToInsert = ''`. -/
def initSys : SysState := ⟨⟨0, false, []⟩, []⟩

/-! ## Character diff -/

/-- One edit-script op as produced by the text-diff utility: a run of
characters tagged unchanged, removed or added. -/
inductive DiffOp where
  | unchanged (value : List Char) : DiffOp
  | removed (value : List Char) : DiffOp
  | added (value : List Char) : DiffOp
deriving DecidableEq, Repr

/-- The op's `count` property: the run's character length. -/
def DiffOp.count : DiffOp → Nat
  | .unchanged v => v.length
  | .removed v => v.length
  | .added v => v.length

/-- The `removed === true` test on an op. -/
def DiffOp.isRemoved : DiffOp → Bool
  | .removed _ => true
  | _ => false

/-- Longest common head of two character lists. -/
def sharedHead : List Char → List Char → List Char
  | a :: as, b :: bs => if a = b then a :: sharedHead as bs else []
  | _, _ => []

/-- Modelled from the spec: the external Text Diff Utility
(`jsdiff.diffChars`, pulled in by `require('diff')` and not part of this
repository).  Per the spec it yields a character-level edit script of
`unchanged` / `removed` / `added` ops, each carrying its substring and
count; at a change point the removed run precedes the added run.  The
model emits the longest unchanged head, then the removed and added
middles, then the longest unchanged tail, skipping empty runs. -/
def diffChars (oldText newText : List Char) : List DiffOp :=
  let p := sharedHead oldText newText
  let oldRest := oldText.drop p.length
  let newRest := newText.drop p.length
  let s := (sharedHead oldRest.reverse newRest.reverse).reverse
  let oldMid := oldRest.take (oldRest.length - s.length)
  let newMid := newRest.take (newRest.length - s.length)
  (if p = [] then [] else [DiffOp.unchanged p]) ++
    (if oldMid = [] then [] else [DiffOp.removed oldMid]) ++
      (if newMid = [] then [] else [DiffOp.added newMid]) ++
        (if s = [] then [] else [DiffOp.unchanged s])

/-! ## Input reconciler (`onInput` and `updateTextAndSelection`) -/

/-- A leaf as read from `node.getLeaves()`: its text and marks. -/
structure Leaf where
  text : List Char
  marks : List String
deriving DecidableEq, Repr

/-- Everything `onInput` reads from its environment: the platform flag,
the `findPoint` result (key and offset, or `none`), the affected node's
leaves, `anchorNode.textContent`, whether the node is the block's last
text node, and `value.selection`. -/
structure InputCtx where
  isAndroid : Bool
  point : Option (String × Nat)
  leaves : List Leaf
  textContent : List Char
  isLastText : Bool
  sel : Selection
deriving DecidableEq, Repr

/-- The `leaves.find(...)` scan: `start = end; end += r.text.length;
if (end >= point.offset) return true`.  Returns the leaf with its
`start` / `end` offsets and its index. -/
def findLeafAux : List Leaf → Nat → Nat → Nat → Option (Leaf × Nat × Nat × Nat)
  | [], _, _, _ => none
  | r :: rs, offset, acc, idx =>
      if acc + r.text.length ≥ offset then some (r, acc, acc + r.text.length, idx)
      else findLeafAux rs offset (acc + r.text.length) (idx + 1)

/-- Total character length of a leaf list. -/
def totalLen (leaves : List Leaf) : Nat :=
  (leaves.map (fun l => l.text.length)).sum

/-- The full `const leaf = leaves.find(...) || lastLeaf` computation.
When the scan fails, `leaf` is `leaves.last()` and the mutated `start` /
`end` variables hold the values from the final loop iteration, which are
exactly the last leaf's offsets.  With no leaves at all, `leaf` is
`undefined` and the subsequent `const { text } = leaf` throws, so `none`
is returned. -/
def findLeaf (leaves : List Leaf) (offset : Nat) : Option (Leaf × Nat × Nat × Nat) :=
  match findLeafAux leaves offset 0 0 with
  | some r => some r
  | none =>
      match leaves.getLast? with
      | none => none
      | some l => some (l, totalLen leaves - l.text.length, totalLen leaves, leaves.length - 1)

/-- The trailing-newline compensation: if this leaf is the block's last
text node and the node's last leaf and `textContent` ends in `'\n'`,
drop that final character (`textContent.slice(0, -1)`). -/
def stripLast (isLastText isLastLeaf : Bool) (textContent : List Char) : List Char :=
  if isLastText && isLastLeaf && (textContent.getLast? == some '\n') then
    textContent.dropLast
  else textContent

/-- A model mutation performed through `change`. -/
inductive Mutation where
  /-- `change.insertText(text)` (before-input path). -/
  | insertText (text : List Char) : Mutation
  /-- `change.deleteCharBackward()`, acting at the given current
  selection. -/
  | deleteCharBackward (sel : Selection) : Mutation
  /-- `change.insertTextAtRange(range, newText, marks).select(newSel)`. -/
  | replaceRange (range : Selection) (newText : List Char)
      (marks : List String) (newSel : Selection) : Mutation
deriving DecidableEq, Repr

/-- What an `onInput` call amounts to: a bare `return` (`undefined`, so
the host's default handling still runs), `return false` together with the
mutation performed on the way (if any), or an uncaught exception. -/
inductive InputResult where
  | unhandled : InputResult
  | handled (m : Option Mutation) : InputResult
  | crash (msg : String) : InputResult
deriving DecidableEq, Repr

/-- Whether the result is the explicit `return false` that suppresses the
host editor's default handling. -/
def InputResult.suppressed : InputResult → Bool
  | .handled _ => true
  | _ => false

/-- The mutation an `onInput` call performed, if any. -/
def InputResult.mutation : InputResult → Option Mutation
  | .handled m => m
  | _ => none

/-- `updateTextAndSelection(change, textContent, text, point, start, end,
marks)`: `delta = textContent.length - text.length`;
`corrected = selection.collapseToEnd().move(delta)`;
`entire = selection.moveAnchorTo(point.key, start).moveFocusTo(point.key, end)`;
`change.insertTextAtRange(entire, textContent, marks).select(corrected)`. -/
def updateTextAndSelection (sel : Selection) (textContent text : List Char)
    (key : String) (start stop : Nat) (marks : List String) : Mutation :=
  let delta : Int := (textContent.length : Int) - (text.length : Int)
  let corrected := (sel.collapseToEnd).move delta
  let entire := (sel.moveAnchorTo key (start : Int)).moveFocusTo key (stop : Int)
  .replaceRange entire textContent marks corrected

/-- The platform branch of `onInput` after the equality check found the
texts different.  On Android it inspects `jsdiff.diffChars(text,
textContent)`:
* an empty script skips the whole block and reaches `return false`;
* a one-op script computes `ind = diffs[0].count` and then throws a
  `TypeError` reading `.removed` of the `undefined` `diffs[1]`;
* otherwise, `diffs[1].removed === true && diffs[1].count === 1` runs
  `selection.collapseToStart().move(ind)` — whose result is a fresh range
  that is never assigned or passed to `change.select`, so the selection
  is unchanged — then `change.deleteCharBackward()`;
* `diffs[1].removed === true` with another count falls to
  `updateTextAndSelection`;
* any other second op runs nothing and reaches `return false`.

Off Android it always runs `updateTextAndSelection`. -/
def reconcile (isAndroid : Bool) (sel : Selection) (text textContent : List Char)
    (key : String) (start stop : Nat) (marks : List String) : InputResult :=
  if isAndroid then
    match diffChars text textContent with
    | [] => .handled none
    | [_] => .crash "TypeError: cannot read removed of undefined"
    | d0 :: d1 :: _ =>
        if d1.isRemoved then
          if d1.count = 1 then
            let _discarded := (sel.collapseToStart).move (d0.count : Int)
            .handled (some (.deleteCharBackward sel))
          else
            .handled (some (updateTextAndSelection sel textContent text key start stop marks))
        else .handled none
  else
    .handled (some (updateTextAndSelection sel textContent text key start stop marks))

/-- `onInput(event, change, editor)` (lines 129-201 of the source):
resolve the point (`return` when `findPoint` yields nothing), locate the
leaf and its offsets, read and newline-compensate `textContent`, `return`
when it equals the leaf's text, otherwise reconcile and `return false`. -/
def onInput (ctx : InputCtx) : InputResult :=
  match ctx.point with
  | none => .unhandled
  | some (key, offset) =>
      match findLeaf ctx.leaves offset with
      | none => .crash "TypeError: cannot destructure undefined leaf"
      | some (leaf, start, stop, idx) =>
          let isLastLeaf : Bool := idx + 1 == ctx.leaves.length
          let textContent := stripLast ctx.isLastText isLastLeaf ctx.textContent
          if textContent = leaf.text then .unhandled
          else reconcile ctx.isAndroid ctx.sel leaf.text textContent key start stop leaf.marks

/-- Slate `insertTextAtRange` on a node's text, for a range spanning
`[start, stop)`: the range's characters are replaced by `newText`. -/
def insertTextAtRange (nodeText : List Char) (start stop : Nat)
    (newText : List Char) : List Char :=
  nodeText.take start ++ newText ++ nodeText.drop stop

/-! ## Helper lemmas -/

/-- On a single-leaf node the scan always lands on that leaf with offsets
`[0, length)` (via the fallback when the offset exceeds the length). -/
theorem findLeaf_singleton (l : Leaf) (offset : Nat) :
    findLeaf [l] offset = some (l, 0, l.text.length, 0) := by
  by_cases h : offset ≤ l.text.length
  · simp [findLeaf, findLeafAux, h]
  · simp [findLeaf, findLeafAux, h, totalLen]

/-- Off the last text node no newline is stripped. -/
theorem stripLast_not_lastText (b : Bool) (t : List Char) :
    stripLast false b t = t := by
  simp [stripLast]

/-- When `findPoint` resolves nothing, `onInput` is the bare `return`. -/
theorem onInput_point_none (ctx : InputCtx) (hp : ctx.point = none) :
    onInput ctx = .unhandled := by
  unfold onInput
  rw [hp]

/-- When the compensated `textContent` equals the leaf's text, `onInput`
is the bare `return`. -/
theorem onInput_equal_text (ctx : InputCtx) (key : String) (off : Nat)
    (leaf : Leaf) (start stop idx : Nat)
    (hp : ctx.point = some (key, off))
    (hf : findLeaf ctx.leaves off = some (leaf, start, stop, idx))
    (heq : stripLast ctx.isLastText (idx + 1 == ctx.leaves.length) ctx.textContent
      = leaf.text) :
    onInput ctx = .unhandled := by
  unfold onInput
  simp only [hp, hf, heq, if_pos]

/-- When the compensated `textContent` differs from the leaf's text,
`onInput` is the platform branch `reconcile`. -/
theorem onInput_eq_reconcile (ctx : InputCtx) (key : String) (off : Nat)
    (leaf : Leaf) (start stop idx : Nat)
    (hp : ctx.point = some (key, off))
    (hf : findLeaf ctx.leaves off = some (leaf, start, stop, idx))
    (hne : stripLast ctx.isLastText (idx + 1 == ctx.leaves.length) ctx.textContent
      ≠ leaf.text) :
    onInput ctx = reconcile ctx.isAndroid ctx.sel leaf.text
      (stripLast ctx.isLastText (idx + 1 == ctx.leaves.length) ctx.textContent)
      key start stop leaf.marks := by
  unfold onInput
  simp only [hp, hf, if_neg hne]

/-- Every branch of `reconcile` ends in `return false`, except the one-op
Android diff, which throws. -/
theorem reconcile_suppressed (android : Bool) (sel : Selection)
    (text tc : List Char) (key : String) (start stop : Nat)
    (marks : List String)
    (hsafe : android = true → (diffChars text tc).length ≠ 1) :
    (reconcile android sel text tc key start stop marks).suppressed = true := by
  cases android with
  | false => rfl
  | true =>
      have h1 := hsafe rfl
      unfold reconcile
      rcases hd : diffChars text tc with _ | ⟨d0, _ | ⟨d1, rest⟩⟩
      · simp [hd, InputResult.suppressed]
      · exact absurd (by simp [hd]) h1
      · simp only [hd, if_true]
        by_cases hr : d1.isRemoved = true <;> by_cases hc : d1.count = 1 <;>
          simp [hr, hc, InputResult.suppressed]

/-! ## Claim theorems -/

/-- C1.  For modelText `"hello world"`, observedText `"hello orld"`
(diff: unchanged prefix of length 6, removed op of count 1), the Android
path of `onInput` does apply the `DeleteBackward(1)` correction and not a
full replace — but it does so at the *unchanged* current selection (here
collapsed at offset 11): the range produced by
`selection.collapseToStart().move(6)` is discarded, so, contrary to the
claim (and to the source's own `Set selection, delete char` comment), the
selection is not moved to offset 6 within the leaf first. -/
theorem c1_delete_at_unmoved_selection :
    onInput ⟨true, some ("k", 11), [⟨"hello world".toList, ["bold"]⟩],
        "hello orld".toList, false, ⟨"k", 11, "k", 11, false⟩⟩ =
      .handled (some (.deleteCharBackward ⟨"k", 11, "k", 11, false⟩)) ∧
      (⟨"k", 11, "k", 11, false⟩ : Selection) ≠
        Selection.move (Selection.collapseToStart ⟨"k", 11, "k", 11, false⟩) 6 ∧
      Selection.anchorOffset ⟨"k", 11, "k", 11, false⟩ ≠ 6 :=
  ⟨rfl, by decide, by decide⟩

/-- C2 (amended).  On the Android path with differing texts, when the
diff's second op is a `removed` op whose count is not 1, `onInput` falls
through to the full `updateTextAndSelection` replace. -/
theorem c2_second_op_removal_replaces (tc text : List Char)
    (marks : List String) (sel : Selection) (key : String) (off : Nat)
    (d0 : DiffOp) (v : List Char) (rest : List DiffOp)
    (hne : tc ≠ text)
    (hdiff : diffChars text tc = d0 :: DiffOp.removed v :: rest)
    (hcount : v.length ≠ 1) :
    onInput ⟨true, some (key, off), [⟨text, marks⟩], tc, false, sel⟩ =
      .handled (some (updateTextAndSelection sel tc text key 0 text.length marks)) := by
  have hs : stripLast false (0 + 1 == [(⟨text, marks⟩ : Leaf)].length) tc = tc :=
    stripLast_not_lastText _ tc
  have h := onInput_eq_reconcile
    ⟨true, some (key, off), [⟨text, marks⟩], tc, false, sel⟩
    key off ⟨text, marks⟩ 0 text.length 0 rfl (findLeaf_singleton _ _)
    (by rw [hs]; exact hne)
  rw [h, hs]
  unfold reconcile
  simp [hdiff, DiffOp.isRemoved, DiffOp.count, hcount]

/-- C2 witness: the claim's own example, modelText `"hello world"`,
observedText `"hello"` (diff: unchanged(5), removed(6)), produces the
full replace. -/
theorem c2_second_op_removal_replaces_witness :
    onInput ⟨true, some ("k", 5), [⟨"hello world".toList, []⟩],
        "hello".toList, false, ⟨"k", 11, "k", 11, false⟩⟩ =
      .handled (some (updateTextAndSelection ⟨"k", 11, "k", 11, false⟩
        "hello".toList "hello world".toList "k" 0 11 [])) :=
  c2_second_op_removal_replaces "hello".toList "hello world".toList []
    ⟨"k", 11, "k", 11, false⟩ "k" 5 (DiffOp.unchanged "hello".toList)
    " world".toList [] (by decide) (by decide) (by decide)

/-- C2 counterexample.  An insertion-only diff on the Android path
(modelText `"a"`, observedText `"ab"`, diff: unchanged(1), added(1))
produces *no* correction at all — `onInput` reaches `return false`
without any mutation, rather than the full `ReplaceRange` the claim
requires for every non-backspace diff shape. -/
theorem c2_counterexample_insertion_diff :
    onInput ⟨true, some ("k", 2), [⟨['a'], []⟩], ['a', 'b'], false,
        ⟨"k", 2, "k", 2, false⟩⟩ = .handled none ∧
      InputResult.mutation (onInput ⟨true, some ("k", 2), [⟨['a'], []⟩],
        ['a', 'b'], false, ⟨"k", 2, "k", 2, false⟩⟩) = none :=
  ⟨rfl, rfl⟩

/-- C3.  The claim (and the spec) say `onInput` never throws, but on the
Android path a diff with a single op — here modelText `"a"`,
observedText `""`, a pure removal with no unchanged prefix — makes the
source read `diffs[1].removed` on an `undefined` element, an uncaught
`TypeError`. -/
theorem c3_one_op_diff_throws :
    onInput ⟨true, some ("k", 0), [⟨['a'], []⟩], [], false,
        ⟨"k", 1, "k", 1, false⟩⟩ =
      .crash "TypeError: cannot read removed of undefined" := rfl

/-- C4 counterexample.  When `findPoint` resolves nothing, `onInput` hits
the bare `return` (value `undefined`), not the explicit `return false`:
the host editor's default handling is *not* suppressed, contrary to the
claim's "on every invocation". -/
theorem c4_counterexample_unresolved_point :
    onInput ⟨true, none, [⟨['a'], []⟩], ['a'], false,
        ⟨"k", 0, "k", 0, false⟩⟩ = .unhandled ∧
      InputResult.suppressed (onInput ⟨true, none, [⟨['a'], []⟩], ['a'],
        false, ⟨"k", 0, "k", 0, false⟩⟩) = false :=
  ⟨rfl, rfl⟩

/-- C4 (amended).  `onInput` returns the explicit handled result `false`
exactly when it reaches the reconciliation step: the point resolves, a
leaf is found, the compensated text differs, and on Android the diff does
not have exactly one op (which would throw instead).  When the point is
unresolvable it returns `undefined`, leaving default handling
unsuppressed. -/
theorem c4_handled_when_reconciling (ctx : InputCtx) (key : String)
    (off : Nat) (leaf : Leaf) (start stop idx : Nat)
    (hp : ctx.point = some (key, off))
    (hf : findLeaf ctx.leaves off = some (leaf, start, stop, idx))
    (hne : stripLast ctx.isLastText (idx + 1 == ctx.leaves.length) ctx.textContent
      ≠ leaf.text)
    (hsafe : ctx.isAndroid = true →
      (diffChars leaf.text
        (stripLast ctx.isLastText (idx + 1 == ctx.leaves.length) ctx.textContent)).length
        ≠ 1) :
    (onInput ctx).suppressed = true ∧
      ∀ c : InputCtx, c.point = none → onInput c = .unhandled := by
  refine ⟨?_, fun c hc => onInput_point_none c hc⟩
  rw [onInput_eq_reconcile ctx key off leaf start stop idx hp hf hne]
  exact reconcile_suppressed _ _ _ _ _ _ _ _ hsafe

/-- C4 witness: a concrete non-Android reconciliation returns `false`,
and a concrete unresolvable point returns `undefined`. -/
theorem c4_handled_when_reconciling_witness :
    (onInput ⟨false, some ("k", 1), [⟨['a'], []⟩], ['a', 'b'], false,
        ⟨"k", 1, "k", 1, false⟩⟩).suppressed = true ∧
      onInput ⟨false, none, [⟨['a'], []⟩], ['a', 'b'], false,
        ⟨"k", 1, "k", 1, false⟩⟩ = .unhandled := by
  have h := c4_handled_when_reconciling
    ⟨false, some ("k", 1), [⟨['a'], []⟩], ['a', 'b'], false, ⟨"k", 1, "k", 1, false⟩⟩
    "k" 1 ⟨['a'], []⟩ 0 1 0 rfl (by decide) (by decide) (by decide)
  exact ⟨h.1, h.2 _ rfl⟩

/-- C5.  On Android, `compositionStart`, then `compositionEnd` with data
`"teh"`, then `beforeInput` with data `" "` produce exactly one insertion,
`"teh "`, and `textToInsert` is empty afterwards. -/
theorem c5_composition_round_trip :
    (runTrace true [Event.compStart, Event.compEnd "teh".toList,
        Event.beforeInput " ".toList] initSys).2 = ["teh ".toList] ∧
      (runTrace true [Event.compStart, Event.compEnd "teh".toList,
        Event.beforeInput " ".toList] initSys).1.comp.textToInsert = [] :=
  ⟨rfl, rfl⟩

/-- C6.  Stale deferred resets are no-ops: after `compositionStart`
(generation 1), `compositionEnd` (schedules a reset capturing 1), a
second `compositionStart` (generation 2) and then the deferred reset
firing, `isComposing` is still `true`; and in general the fired reset
leaves `isComposing` `true` unless the generation at run time is still at
most the captured value (equality, given that `compositionCount` never
decreases) or composition had already ended. -/
theorem c6_stale_reset_is_noop :
    (runTrace true [Event.compStart, Event.compEnd [], Event.compStart,
        Event.fireReset] initSys).1.comp.isComposing = true ∧
      ∀ (s : CompState) (n : Nat),
        ((runReset n s).isComposing = false ↔
          s.compositionCount ≤ n ∨ s.isComposing = false) := by
  refine ⟨rfl, fun s n => ?_⟩
  unfold runReset
  by_cases h : s.compositionCount > n
  · rw [if_pos h]
    simp [Nat.not_le.mpr h]
  · rw [if_neg h]
    simp [Nat.le_of_not_lt h]

/-- C7.  On the non-Android path with differing texts, `onInput` issues
the `ReplaceRange` correction: the leaf's whole range `[0, len)` is
replaced by `observedText` carrying the leaf's marks (so applying it to
the node text yields `observedText`), and the new selection is the old
one collapsed to its end and moved by
`len(observedText) - len(modelText)`. -/
theorem c7_replace_correctness (text obs : List Char) (marks : List String)
    (sel : Selection) (key : String) (off : Nat) (hne : obs ≠ text) :
    onInput ⟨false, some (key, off), [⟨text, marks⟩], obs, false, sel⟩ =
      .handled (some (.replaceRange
        ((sel.moveAnchorTo key 0).moveFocusTo key (text.length : Int))
        obs marks
        ((sel.collapseToEnd).move ((obs.length : Int) - (text.length : Int))))) ∧
      insertTextAtRange text 0 text.length obs = obs := by
  constructor
  · have hs : stripLast false (0 + 1 == [(⟨text, marks⟩ : Leaf)].length) obs = obs :=
      stripLast_not_lastText _ obs
    have h := onInput_eq_reconcile
      ⟨false, some (key, off), [⟨text, marks⟩], obs, false, sel⟩
      key off ⟨text, marks⟩ 0 text.length 0 rfl (findLeaf_singleton _ _)
      (by rw [hs]; exact hne)
    rw [h, hs]
    simp [reconcile, updateTextAndSelection]
  · simp [insertTextAtRange, List.drop_length]

/-- C7 witness at modelText `"ab"`, observedText `"a"`, a collapsed
selection at offset 2: the replace carries `"a"` and the selection moves
back by 1 to offset 1. -/
theorem c7_replace_correctness_witness :
    onInput ⟨false, some ("k", 1), [⟨['a', 'b'], ["em"]⟩], ['a'], false,
        ⟨"k", 2, "k", 2, false⟩⟩ =
      .handled (some (.replaceRange ⟨"k", 0, "k", 2, false⟩ ['a'] ["em"]
        ⟨"k", 1, "k", 1, false⟩)) ∧
      insertTextAtRange ['a', 'b'] 0 2 ['a'] = ['a'] := by
  have h := c7_replace_correctness ['a', 'b'] ['a'] ["em"]
    ⟨"k", 2, "k", 2, false⟩ "k" 1 (by decide)
  exact ⟨by rw [h.1]; rfl, h.2⟩

/-- C8.  Whenever the compensated observed text equals the leaf's model
text, `onInput` aborts with the bare `return`: no mutation is performed,
whatever the leaf contents. -/
theorem c8_equal_text_no_mutation (ctx : InputCtx) (key : String)
    (off : Nat) (leaf : Leaf) (start stop idx : Nat)
    (hp : ctx.point = some (key, off))
    (hf : findLeaf ctx.leaves off = some (leaf, start, stop, idx))
    (heq : stripLast ctx.isLastText (idx + 1 == ctx.leaves.length) ctx.textContent
      = leaf.text) :
    onInput ctx = .unhandled ∧ (onInput ctx).mutation = none := by
  have h := onInput_equal_text ctx key off leaf start stop idx hp hf heq
  exact ⟨h, by rw [h]; rfl⟩

/-- C8 witness: equal texts (`"a"` observed and modelled) yield no
mutation. -/
theorem c8_equal_text_no_mutation_witness :
    onInput ⟨true, some ("k", 1), [⟨['a'], []⟩], ['a'], false,
        ⟨"k", 1, "k", 1, false⟩⟩ = .unhandled ∧
      (onInput ⟨true, some ("k", 1), [⟨['a'], []⟩], ['a'], false,
        ⟨"k", 1, "k", 1, false⟩⟩).mutation = none :=
  c8_equal_text_no_mutation
    ⟨true, some ("k", 1), [⟨['a'], []⟩], ['a'], false, ⟨"k", 1, "k", 1, false⟩⟩
    "k" 1 ⟨['a'], []⟩ 0 1 0 rfl (by decide) (by decide)

/-- C9.  For the last leaf of the block's last text node, exactly one
trailing newline is stripped: an observed text ending in one `'\n'` loses
it, and one ending in `"\n\n"` keeps exactly one `'\n'`. -/
theorem c9_trailing_newline_compensation (s : List Char) :
    stripLast true true (s ++ ['\n']) = s ∧
      stripLast true true (s ++ ['\n', '\n']) = s ++ ['\n'] := by
  constructor
  · simp [stripLast, List.getLast?_concat]
  · have h2 : s ++ ['\n', '\n'] = (s ++ ['\n']) ++ ['\n'] := by simp
    rw [h2]
    simp [stripLast, List.getLast?_concat]

/-- C10.  Off Android, `onCompositionEnd` never touches `textToInsert`,
however the composing flag and the event data stand. -/
theorem c10_non_android_never_buffers (s : CompState) (data : List Char) :
    ((onCompositionEnd false data s).1).textToInsert = s.textToInsert := by
  simp [onCompositionEnd]

end Gboard
